import Mathlib

/-!
Verification of the Odin's Eye base-64 oscillator (`src/Odins_eye.py`).

The development is a shallow embedding of the `OdinsEye` class: byte buffers
are `List Nat`, lattice positions are `Int`, the SHA-256 hex digest is an
abstract function parameter `H : List Nat → List Nat` (a hex string modelled
as its list of character codes; the code only ever compares digests for
equality and tests truthiness, so nothing else about the hash is needed),
and Python `ValueError`s become an explicit error type.
-/

namespace OdinsEye

/-- Lattice lower bound, `OdinsEye.LOW`. -/
def LOW : Int := 10000

/-- Lattice upper bound, `OdinsEye.HIGH`. -/
def HIGH : Int := 99999

/-- Step scaling factor, `OdinsEye.STEP_FACTOR`. -/
def STEP_FACTOR : Int := 8

/-- Symbol offset center, `OdinsEye.CENTER`. -/
def CENTER : Int := 32

/-- The `VERSION` string "0.1.1", as character codes. -/
def VERSION : List Nat := [48, 46, 49, 46, 49]

/-! ### Bit-string utilities (Python `f-string` binary formatting and `int(_, 2)`) -/

/-- Binary digits of `n`, least significant first; the first argument is
recursion fuel (`n` itself always suffices).  `natBitsAux n n = []` for
`n = 0`, matching the padding behaviour of `f'{0:06b}'` below. -/
def natBitsAux : Nat → Nat → List Bool
  | 0, _ => []
  | _ + 1, 0 => []
  | f + 1, n + 1 => ((n + 1) % 2 = 1) :: natBitsAux f ((n + 1) / 2)

/-- Binary digits of `n`, most significant first, no leading zeros. -/
def binDigits (n : Nat) : List Bool := (natBitsAux n n).reverse

/-- `f'{n:0wb}'`: binary representation of `n` left-padded with zeros to at
least `w` digits (longer if `n` needs more digits). -/
def padBits (w : Nat) (n : Nat) : List Bool :=
  List.replicate (w - (binDigits n).length) false ++ binDigits n

/-- `f'{n:06b}'`. -/
def bin6 (n : Nat) : List Bool := padBits 6 n

/-- `f'{n:08b}'`. -/
def bin8 (n : Nat) : List Bool := padBits 8 n

/-- `int(bits, 2)` for a most-significant-bit-first bit string. -/
def natOfBits (bits : List Bool) : Nat :=
  bits.foldl (fun a b => 2 * a + (if b then 1 else 0)) 0

/-- Split a bit string into consecutive groups of `n` bits (the final group
may be shorter), mirroring `range(0, len(s), n)` slicing.  The first
argument is fuel; the list's length always suffices for `n ≥ 1`. -/
def groupNAux : Nat → Nat → List Bool → List (List Bool)
  | 0, _, _ => []
  | _ + 1, _, [] => []
  | f + 1, n, x :: xs => (x :: xs).take n :: groupNAux f n ((x :: xs).drop n)

/-- Split a bit string into consecutive groups of `n` bits. -/
def groupN (n : Nat) (l : List Bool) : List (List Bool) := groupNAux l.length n l

/-- `encode` lines 38-41: concatenate the 8-bit representations of all data
bytes, slice into 6-bit symbols, and left-shift the final symbol so that
its valid bits occupy the high-order positions (`chunks[-1] <<= ...`).
Appending zeros on the right before taking the value is exactly that shift. -/
def chunksOfData (data : List Nat) : List Nat :=
  (groupN 6 (data.flatMap bin8)).map
    (fun g => natOfBits (g ++ List.replicate (6 - g.length) false))

/-- `chunks[-1] if chunks else 0`. -/
def lastD : List Nat → Nat
  | [] => 0
  | [d] => d
  | _ :: d2 :: rest => lastD (d2 :: rest)

/-! ### Forward walker (`encode` lines 43-55) -/

/-- One step of the forward walk: add `direction * (d - CENTER) * STEP_FACTOR`
to the position, then apply the reset rule (overshoot above `HIGH` resets to
`LOW` with direction `+1`, undershoot below `LOW` resets to `HIGH` with
direction `-1`).  Returns the new `(position, direction)`. -/
def stepF (pos dir : Int) (d : Nat) : Int × Int :=
  if pos + dir * ((d : Int) - CENTER) * STEP_FACTOR > HIGH then (LOW, 1)
  else if pos + dir * ((d : Int) - CENTER) * STEP_FACTOR < LOW then (HIGH, -1)
  else (pos + dir * ((d : Int) - CENTER) * STEP_FACTOR, dir)

/-- The full walk loop of `encode`: returns `(current, direction, anchor)`
where `anchor` is the position immediately before the final executed step
(the loop records `anchor = current` before each update). -/
def walkA : List Nat → Int → Int → Int → Int × Int × Int
  | [], pos, dir, anc => (pos, dir, anc)
  | d :: rest, pos, dir, _ => walkA rest (stepF pos dir d).1 (stepF pos dir d).2 pos

/-- One entry of the walk trace: position and direction before a step, the
symbol consumed, and position and direction after the step. -/
structure WStep where
  pre : Int
  dir : Int
  sym : Nat
  post : Int
  dirAfter : Int
deriving DecidableEq, Repr

/-- The walk of `encode`, step by step. -/
def walkTrace : List Nat → Int → Int → List WStep
  | [], _, _ => []
  | d :: rest, pos, dir =>
    ⟨pos, dir, d, (stepF pos dir d).1, (stepF pos dir d).2⟩ ::
      walkTrace rest (stepF pos dir d).1 (stepF pos dir d).2

/-- A step triggers a boundary reflection (reset) when the raw candidate
position leaves `[LOW, HIGH]`. -/
def reflects (pos dir : Int) (d : Nat) : Prop :=
  pos + dir * ((d : Int) - CENTER) * STEP_FACTOR > HIGH ∨
    pos + dir * ((d : Int) - CENTER) * STEP_FACTOR < LOW

instance (pos dir : Int) (d : Nat) : Decidable (reflects pos dir d) := by
  unfold reflects; infer_instance

/-! ### The Coordinate record -/

/-- The dict returned by `encode`: field names follow the source
(`last_choice`, `original_hash`, `version`).  `original_hash` is an `Option`
because `decode` reads it with `coord.get("original_hash")`. -/
structure Coord where
  version : List Nat
  start_mask : Int
  end_mask : Int
  anchor_mask : Int
  last_choice : Nat
  last_direction : Int
  length_bytes : Nat
  original_hash : Option (List Nat)
deriving DecidableEq, Repr

/-- `OdinsEye(start_mask).encode(data)`, parameterized by the digest
function `H` (modelling `hashlib.sha256(_).hexdigest()`). -/
def encode (H : List Nat → List Nat) (start_mask : Int) (data : List Nat) : Coord :=
  if data = [] then
    { version := VERSION, start_mask := start_mask, end_mask := start_mask,
      anchor_mask := start_mask, last_choice := 0, last_direction := 1,
      length_bytes := 0, original_hash := some (H []) }
  else
    { version := VERSION, start_mask := start_mask,
      end_mask := (walkA (chunksOfData data) start_mask 1 start_mask).1,
      anchor_mask := (walkA (chunksOfData data) start_mask 1 start_mask).2.2,
      last_choice := lastD (chunksOfData data),
      last_direction := (walkA (chunksOfData data) start_mask 1 start_mask).2.1,
      length_bytes := data.length, original_hash := some (H data) }

/-! ### Backward resolver (`decode` lines 91-136) -/

/-- The `ValueError`s `decode`/`decode_stream` can raise. -/
inductive DecodeErr where
  | anchorMismatch
  | backwardStuck
  | hashMismatch
deriving DecidableEq, Repr

instance {ε α : Type} [DecidableEq ε] [DecidableEq α] : DecidableEq (Except ε α) :=
  fun a b =>
    match a, b with
    | .error e1, .error e2 =>
      if h : e1 = e2 then isTrue (by rw [h]) else isFalse (fun hh => h (by injection hh))
    | .ok a1, .ok a2 =>
      if h : a1 = a2 then isTrue (by rw [h]) else isFalse (fun hh => h (by injection hh))
    | .error _, .ok _ => isFalse (fun hh => Except.noConfusion hh)
    | .ok _, .error _ => isFalse (fun hh => Except.noConfusion hh)

/-- The body of the candidate search for one value of `d` (`decode` lines
110-131): accept if the predecessor `pos - direction * (d - CENTER) *
STEP_FACTOR` is in range, or unwind a reset arriving at `LOW` (resp. `HIGH`).
Returns the resolved `(predecessor, direction)` on acceptance. -/
def acceptOne (pos dir : Int) (d : Nat) : Option (Int × Int) :=
  if LOW ≤ pos - dir * ((d : Int) - CENTER) * STEP_FACTOR ∧
      pos - dir * ((d : Int) - CENTER) * STEP_FACTOR ≤ HIGH then
    some (pos - dir * ((d : Int) - CENTER) * STEP_FACTOR, dir)
  else if pos = LOW ∧ pos - dir * ((d : Int) - CENTER) * STEP_FACTOR > HIGH then
    some (pos - dir * ((d : Int) - CENTER) * STEP_FACTOR - (HIGH - LOW), 1)
  else if pos = HIGH ∧ pos - dir * ((d : Int) - CENTER) * STEP_FACTOR < LOW then
    some (pos - dir * ((d : Int) - CENTER) * STEP_FACTOR + (HIGH - LOW), -1)
  else none

/-- `for d in range(64)` with `break` on first acceptance: try candidates
ascending from `st`; the first argument is the number of candidates left. -/
def findAcceptAux : Nat → Nat → Int → Int → Option (Nat × Int × Int)
  | 0, _, _, _ => none
  | f + 1, st, pos, dir =>
    match acceptOne pos dir st with
    | some pd => some (st, pd.1, pd.2)
    | none => findAcceptAux f (st + 1) pos dir

/-- The per-step search of the backward loop: first `d` in `0..63` accepted. -/
def findAccept (pos dir : Int) : Option (Nat × Int × Int) :=
  findAcceptAux 64 0 pos dir

/-- The backward `while remaining_chunks > 0` loop, returning the resolved
symbols in resolution order together with the final `(position, direction)`.
Raises `backwardStuck` when no candidate is accepted at some step. -/
def resolveLoop : Nat → Int → Int → Except DecodeErr (List Nat × Int × Int)
  | 0, pos, dir => .ok ([], pos, dir)
  | n + 1, pos, dir =>
    match findAccept pos dir with
    | none => .error .backwardStuck
    | some (d, p2, dir2) =>
      match resolveLoop n p2 dir2 with
      | .error e => .error e
      | .ok (syms, pf, df) => .ok (d :: syms, pf, df)

/-- The anchor re-derivation (`decode` lines 91-102, identical in
`decode_stream` lines 166-179): check `end_mask - last_direction * delta ==
anchor_mask`; otherwise try the two reset branches exactly as the source
writes them (note they recompute from `anchor_mask`, not `end_mask`).
Returns the direction the backward loop starts with. -/
def anchorStep (c : Coord) : Except DecodeErr Int :=
  if c.end_mask - c.last_direction * (((c.last_choice : Int) - CENTER) * STEP_FACTOR)
      = c.anchor_mask then .ok c.last_direction
  else if c.end_mask = LOW then
    if c.anchor_mask - c.last_direction * (((c.last_choice : Int) - CENTER) * STEP_FACTOR)
        + (HIGH - LOW) = c.anchor_mask then .ok 1
    else .error .anchorMismatch
  else if c.end_mask = HIGH then
    if c.anchor_mask - c.last_direction * (((c.last_choice : Int) - CENTER) * STEP_FACTOR)
        - (HIGH - LOW) = c.anchor_mask then .ok (-1)
    else .error .anchorMismatch
  else .error .anchorMismatch

/-- The backward phase of `decode`: `total_chunks - 1` iterations of the
search, starting from `(anchor_mask, direction from the anchor step)`. -/
def backwardPhase (c : Coord) (dir : Int) : Except DecodeErr (List Nat × Int × Int) :=
  resolveLoop ((c.length_bytes * 8 + 5) / 6 - 1) c.anchor_mask dir

/-- `decode` without the final hash verification: reconstruct the bit
buffer (each resolved symbol is prepended, so the buffer ends up as the
reversed resolution order followed by `last_choice`), truncate to
`length_bytes * 8` bits and regroup into bytes. -/
def decodeRaw (c : Coord) : Except DecodeErr (List Nat) :=
  if c.length_bytes = 0 then .ok []
  else
    match anchorStep c with
    | .error e => .error e
    | .ok dir =>
      match backwardPhase c dir with
      | .error e => .error e
      | .ok (syms, _, _) =>
        .ok ((groupN 8 (((syms.reverse ++ [c.last_choice]).flatMap bin6).take
          (c.length_bytes * 8))).map natOfBits)

/-- `OdinsEye.decode`: reconstruction followed by the hash verification
`if expected_hash and sha256(recovered) != expected_hash: raise`.  A missing
(`none`) or empty (falsy) stored hash skips the verification. -/
def decode (H : List Nat → List Nat) (c : Coord) : Except DecodeErr (List Nat) :=
  match decodeRaw c with
  | .error e => .error e
  | .ok r =>
    match c.original_hash with
    | none => .ok r
    | some h => if h ≠ [] ∧ H r ≠ h then .error .hashMismatch else .ok r

/-! ### Stream emitter (`decode_stream`, lines 148-232) -/

/-- The inner `while len(bit_buffer) >= 8` loop of `decode_stream` that runs
after each resolved symbol: emit whole bytes and return early (`Bool` flag)
once `length_bytes` bytes have been yielded.  First argument is fuel (the
buffer length suffices). -/
def emitAux : Nat → Nat → List Bool → Nat → List Nat → List Bool × Nat × List Nat × Bool
  | 0, _, bits, y, out => (bits, y, out, false)
  | f + 1, lb, bits, y, out =>
    if 8 ≤ bits.length then
      if lb ≤ y + 1 then (bits.drop 8, y + 1, out ++ [natOfBits (bits.take 8)], true)
      else emitAux f lb (bits.drop 8) (y + 1) (out ++ [natOfBits (bits.take 8)])
    else (bits, y, out, false)

/-- The final flush (`decode_stream` lines 227-232): emit whole bytes with
no early-return check. -/
def flushAux : Nat → List Bool → List Nat
  | 0, _ => []
  | f + 1, bits =>
    if 8 ≤ bits.length then natOfBits (bits.take 8) :: flushAux f (bits.drop 8)
    else []

/-- The backward loop of `decode_stream`: one symbol resolved per iteration
(the same search as `decode`), its 6 bits **appended** to the buffer, then
the emit loop; on early return the bytes yielded so far are the result. -/
def streamLoop : Nat → Nat → Int → Int → List Bool → Nat → List Nat →
    Except DecodeErr (List Nat)
  | 0, _, _, _, bits, _, out => .ok (out ++ flushAux bits.length bits)
  | n + 1, lb, pos, dir, bits, y, out =>
    match findAccept pos dir with
    | none => .error .backwardStuck
    | some (d, p2, dir2) =>
      match emitAux (bits ++ bin6 d).length lb (bits ++ bin6 d) y out with
      | (bits2, y2, out2, done) =>
        if done then .ok out2
        else streamLoop n lb p2 dir2 bits2 y2 out2

/-- `OdinsEye.decode_stream`, with the yielded chunks concatenated into one
byte list.  The generator performs no hash verification at all. -/
def decode_stream (c : Coord) : Except DecodeErr (List Nat) :=
  match anchorStep c with
  | .error e => .error e
  | .ok dir =>
    streamLoop ((c.length_bytes * 8 + 5) / 6 - 1) c.length_bytes c.anchor_mask dir
      (bin6 c.last_choice) 0 []

/-! ### Serialization shape of the returned dict -/

/-- A Python dict value: an `int` or a `str` (the latter as character codes). -/
inductive PyVal where
  | intV : Int → PyVal
  | strV : List Nat → PyVal
deriving DecidableEq, Repr

/-- Whether a dict value is an integer. -/
def PyVal.isIntV : PyVal → Bool
  | .intV _ => true
  | .strV _ => false

/-- The dict literal `encode` returns (lines 59-68; the empty-input literal
at lines 23-32 has the same keys in the same order): key/value pairs in
source order. -/
def toDict (c : Coord) : List (String × PyVal) :=
  [("version", .strV c.version),
   ("start_mask", .intV c.start_mask),
   ("end_mask", .intV c.end_mask),
   ("anchor_mask", .intV c.anchor_mask),
   ("last_choice", .intV (c.last_choice : Int)),
   ("last_direction", .intV c.last_direction),
   ("length_bytes", .intV (c.length_bytes : Int)),
   ("original_hash", .strV (c.original_hash.getD []))]

/-! ### Auxiliary notions used to state the claims -/

/-- All positions visited by the forward walk, including the start. -/
def walkPositions (ch : List Nat) (pos dir : Int) : List Int :=
  pos :: (walkTrace ch pos dir).map WStep.post

/-- The positions at which the backward search runs, i.e. the `current`
value at the start of each backward iteration. -/
def resolvePositions : Nat → Int → Int → List Int
  | 0, _, _ => []
  | n + 1, pos, dir =>
    pos ::
      (match findAccept pos dir with
       | none => []
       | some t => resolvePositions n t.2.1 t.2.2)

/-- "Within 504 units of a boundary": distance to `LOW` or to `HIGH` is at
most `504` (the spread of the 64 candidate predecessors). -/
def near504 (p : Int) : Prop := p - LOW ≤ 504 ∨ HIGH - p ≤ 504

instance (p : Int) : Decidable (near504 p) := by
  unfold near504; infer_instance

/-! ### Helper lemmas -/

/-- `stepF` only ever produces the directions `1` and `-1`. -/
theorem stepF_dir (pos dir : Int) (d : Nat) (hd : dir = 1 ∨ dir = -1) :
    (stepF pos dir d).2 = 1 ∨ (stepF pos dir d).2 = -1 := by
  unfold stepF
  split
  · exact Or.inl rfl
  split
  · exact Or.inr rfl
  · exact hd

/-- The final step of the walk loop: the end state is `stepF` applied to the
recorded anchor with the last symbol and *some* pre-step direction. -/
theorem walkA_last (ch : List Nat) :
    ∀ pos dir anc : Int, ch ≠ [] → (dir = 1 ∨ dir = -1) →
      ∃ dpre, (dpre = 1 ∨ dpre = -1) ∧
        stepF (walkA ch pos dir anc).2.2 dpre (lastD ch) =
          ((walkA ch pos dir anc).1, (walkA ch pos dir anc).2.1) := by
  induction ch with
  | nil => intro pos dir anc hne _; exact absurd rfl hne
  | cons d rest ih =>
    intro pos dir anc _ hd
    cases rest with
    | nil => exact ⟨dir, hd, by simp [walkA, lastD]⟩
    | cons d2 rest2 =>
      have h2 := ih (stepF pos dir d).1 (stepF pos dir d).2 pos (by simp)
        (stepF_dir pos dir d hd)
      simpa [walkA, lastD] using h2

theorem bin8_ne_nil (n : Nat) : bin8 n ≠ [] := by
  unfold bin8 padBits
  intro h
  have hlen := congrArg List.length h
  rw [List.length_append, List.length_replicate] at hlen
  simp only [List.length_nil] at hlen
  omega

theorem chunksOfData_ne_nil (b : List Nat) (hb : b ≠ []) : chunksOfData b ≠ [] := by
  cases b with
  | nil => exact absurd rfl hb
  | cons x xs =>
    unfold chunksOfData
    have h1 : (x :: xs).flatMap bin8 = bin8 x ++ xs.flatMap bin8 := by
      simp [List.flatMap_cons]
    rcases List.exists_cons_of_ne_nil (bin8_ne_nil x) with ⟨y, ys, hy⟩
    rw [h1, hy]
    simp [groupN, groupNAux]

theorem encode_hash (H : List Nat → List Nat) (s : Int) (b : List Nat) :
    (encode H s b).original_hash = some (H b) := by
  by_cases hb : b = [] <;> simp [encode, hb]

/-- When `decode` returns bytes and the coordinate carries a non-empty
digest, the digest of the returned bytes equals the stored one. -/
theorem decode_ok_digest (H : List Nat → List Nat) (c : Coord) (hs r : List Nat)
    (h1 : c.original_hash = some hs) (h2 : hs ≠ []) (h3 : decode H c = .ok r) :
    H r = hs := by
  unfold decode at h3
  cases hr : decodeRaw c with
  | error e => rw [hr] at h3; exact absurd h3 (by simp)
  | ok r2 =>
    rw [hr, h1] at h3
    by_cases hc : H r2 = hs
    · simp [hc] at h3
      exact h3 ▸ hc
    · simp [h2, hc] at h3

/-- An accepted candidate index is below `start + fuel`. -/
theorem findAcceptAux_lt (fuel : Nat) :
    ∀ (st : Nat) (pos dir : Int) (d : Nat) (p2 d2 : Int),
      findAcceptAux fuel st pos dir = some (d, p2, d2) → d < st + fuel := by
  induction fuel with
  | zero => intro st pos dir d p2 d2 h; exact absurd h (by simp [findAcceptAux])
  | succ f ih =>
    intro st pos dir d p2 d2 h
    unfold findAcceptAux at h
    cases hA : acceptOne pos dir st with
    | some pd => rw [hA] at h; injection h with h; injection h with h h2; omega
    | none =>
      rw [hA] at h
      have := ih (st + 1) pos dir d p2 d2 h
      omega

/-- A successful backward loop of fuel `n` resolves exactly `n` symbols,
each below 64. -/
theorem resolveLoop_ok (n : Nat) :
    ∀ (pos dir : Int) (syms : List Nat) (pf df : Int),
      resolveLoop n pos dir = .ok (syms, pf, df) →
        syms.length = n ∧ ∀ x ∈ syms, x < 64 := by
  induction n with
  | zero =>
    intro pos dir syms pf df h
    unfold resolveLoop at h
    simp [Prod.ext_iff] at h
    obtain ⟨h1, -, -⟩ := h
    subst h1
    simp
  | succ m ih =>
    intro pos dir syms pf df h
    unfold resolveLoop at h
    cases hF : findAccept pos dir with
    | none => rw [hF] at h; exact absurd h (by simp)
    | some t =>
      obtain ⟨d, p2, d2⟩ := t
      rw [hF] at h
      dsimp only at h
      cases hR : resolveLoop m p2 d2 with
      | error e => rw [hR] at h; exact absurd h (by simp)
      | ok tri =>
        obtain ⟨s2, pf2, df2⟩ := tri
        rw [hR] at h
        dsimp only at h
        simp [Prod.ext_iff] at h
        have hb := ih p2 d2 s2 pf2 df2 hR
        have hd64 : d < 64 := by
          have := findAcceptAux_lt 64 0 pos dir d p2 d2 hF
          omega
        rw [← h.1]
        refine ⟨by simp [hb.1], ?_⟩
        intro x hx
        rcases List.mem_cons.mp hx with hx | hx
        · omega
        · exact hb.2 x hx

/-- The anchor step only ever fails with `anchorMismatch`. -/
theorem anchorStep_error (c : Coord) (e : DecodeErr)
    (h : anchorStep c = .error e) : e = .anchorMismatch := by
  unfold anchorStep at h
  split at h
  · exact absurd h (by simp)
  · split at h
    · split at h
      · exact absurd h (by simp)
      · injection h with h; exact h.symm
    · split at h
      · split at h
        · exact absurd h (by simp)
        · injection h with h; exact h.symm
      · injection h with h; exact h.symm

/-- The backward loop only ever fails with `backwardStuck`. -/
theorem resolveLoop_error (n : Nat) :
    ∀ (pos dir : Int) (e : DecodeErr),
      resolveLoop n pos dir = .error e → e = .backwardStuck := by
  induction n with
  | zero => intro pos dir e h; exact absurd h (by simp [resolveLoop])
  | succ m ih =>
    intro pos dir e h
    unfold resolveLoop at h
    cases hF : findAccept pos dir with
    | none => rw [hF] at h; injection h with h; exact h.symm
    | some t =>
      obtain ⟨d, p2, d2⟩ := t
      rw [hF] at h
      dsimp only at h
      cases hR : resolveLoop m p2 d2 with
      | error e2 =>
        rw [hR] at h
        dsimp only at h
        injection h with h
        exact h ▸ ih p2 d2 e2 hR
      | ok tri =>
        obtain ⟨s2, pf2, df2⟩ := tri
        rw [hR] at h
        exact absurd h (by simp)

/-- Helper for the C5 statement: the first accepted candidate at an interior
position is `d = 0`. -/
theorem acceptOne_interior (p dir : Int)
    (h1 : 504 < p - LOW) (h2 : 504 < HIGH - p) (hd : dir = 1 ∨ dir = -1) :
    acceptOne p dir 0 = some (p + dir * 256, dir) := by
  unfold acceptOne LOW HIGH CENTER STEP_FACTOR
  simp only [LOW, HIGH] at h1 h2
  rcases hd with rfl | rfl <;>
    · rw [if_pos (by push_cast; omega)]
      push_cast
      norm_num
      try omega

/-- Reconstruction never produces the integrity error. -/
theorem decodeRaw_not_hash (c : Coord) : decodeRaw c ≠ .error .hashMismatch := by
  unfold decodeRaw
  split
  · simp
  · cases hA : anchorStep c with
    | error e =>
      have := anchorStep_error c e hA
      simp [this]
    | ok dir =>
      dsimp only
      cases hB : backwardPhase c dir with
      | error e =>
        have he : e = DecodeErr.backwardStuck := by
          unfold backwardPhase at hB
          exact resolveLoop_error ((c.length_bytes * 8 + 5) / 6 - 1) c.anchor_mask dir e hB
        simp [he]
      | ok tri =>
        obtain ⟨s2, pf2, df2⟩ := tri
        simp

/-! ### Claims -/

/-- Claim C1, counterexample.  For `data = [255]` and `start_mask = 10000`
every walk position and every backward-search position is within 504 units
of a boundary, yet `decode (encode b)` does not return `b`: the single
backward step accepts `d = 0` (the smallest in-range candidate) instead of
the true symbol 63, and the digest check then rejects the reconstruction. -/
theorem roundtrip_within504_counterexample :
    (∀ p ∈ walkPositions (chunksOfData [255]) (encode id 10000 [255]).start_mask 1,
      near504 p) ∧
    (∀ p ∈ resolvePositions 1 (encode id 10000 [255]).anchor_mask
      (encode id 10000 [255]).last_direction, near504 p) ∧
    decode id (encode id 10000 [255]) ≠ .ok [255] := by decide

/-- Claim C1, amended.  What does hold of the round trip: with an injective
digest whose value on `b` is non-empty (as a SHA-256 hex digest is),
`decode (encode b start_mask)` can never return *wrong* bytes — whenever it
returns at all, it returns exactly `b`.  Success itself is not guaranteed by
the 504-unit proviso. -/
theorem roundtrip_never_wrong_bytes (H : List Nat → List Nat)
    (hinj : Function.Injective H) (s : Int) (b : List Nat) (hne : H b ≠ [])
    (r : List Nat) (h : decode H (encode H s b) = .ok r) : r = b := by
  have hd := decode_ok_digest H (encode H s b) (H b) r (encode_hash H s b) hne h
  exact hinj hd

/-- Witness for C1's amended theorem at `b = [0]`, `start_mask = 50000`. -/
theorem roundtrip_never_wrong_bytes_witness :
    decode id (encode id 50000 [0]) = .ok [0] ∧ ([0] : List Nat) = [0] :=
  ⟨by decide,
   roundtrip_never_wrong_bytes id (fun _ _ hh => hh) 50000 [0] (by decide) [0] (by decide)⟩

/-- Claim C2 (code bug).  The coordinate `encode` produces for
`data = [252]`, `start_mask = 10000` has its final step reset from below to
`HIGH` (`end_mask = HIGH = 99999`), yet `decode` raises its anchor-mismatch
`ValueError` on it: the reset branches of the anchor re-derivation compare
`anchor_mask - direction * delta ± (HIGH - LOW)` against `anchor_mask`
itself, which reconciles only when `direction * delta = ±89999` — impossible
since `|delta| ≤ 256` — so no genuine boundary-crossing coordinate is ever
accepted. -/
theorem anchor_reset_branch_rejects_genuine_coordinate :
    (encode id 10000 [252]).end_mask = HIGH ∧
    decode id (encode id 10000 [252]) = .error .anchorMismatch := by decide

/-- Claim C3, counterexample.  For the coordinate of `data = [252]`,
`start_mask = 10000`, applying one forward step to `anchor_mask` with the
*stored* `last_choice` and `last_direction` does not give `end_mask`: the
final step reset and flipped the direction, and the stored `last_direction`
is the post-step one. -/
theorem coordinate_invariant_counterexample :
    (stepF (encode id 10000 [252]).anchor_mask (encode id 10000 [252]).last_direction
      (encode id 10000 [252]).last_choice).1 ≠ (encode id 10000 [252]).end_mask := by
  decide

/-- Claim C3, amended.  `anchor_mask` is the position immediately preceding
the final step, and `end_mask` together with the stored `last_direction` is
the result of one forward step from `anchor_mask` with `last_choice` and the
direction in effect *before* the final step (some `dpre ∈ {+1, -1}`); the
stored `last_direction` is the post-step direction. -/
theorem coordinate_invariant_pre_direction (H : List Nat → List Nat) (s : Int)
    (b : List Nat) (hb : b ≠ []) :
    ∃ dpre, (dpre = 1 ∨ dpre = -1) ∧
      stepF (encode H s b).anchor_mask dpre (encode H s b).last_choice =
        ((encode H s b).end_mask, (encode H s b).last_direction) := by
  have hch := chunksOfData_ne_nil b hb
  have hmain := walkA_last (chunksOfData b) s 1 s hch (Or.inl rfl)
  simpa [encode, hb] using hmain

/-- Witness for C3's amended theorem at `b = [0]`, `start_mask = 50000`. -/
theorem coordinate_invariant_pre_direction_witness :
    ∃ dpre, (dpre = 1 ∨ dpre = -1) ∧
      stepF (encode id 50000 [0]).anchor_mask dpre (encode id 50000 [0]).last_choice =
        ((encode id 50000 [0]).end_mask, (encode id 50000 [0]).last_direction) :=
  coordinate_invariant_pre_direction id 50000 [0] (by decide)

/-- Claim C4 (confirmed).  `decode_stream` fills its buffer in resolution
order while `decode` prepends, and the two disagree: for the coordinate of
`data = [1]`, `start_mask = 50000`, the drained stream yields `[64]`
(the last symbol's bits first) while `decode` returns the original `[1]`. -/
theorem stream_batch_divergence :
    decode_stream (encode id 50000 [1]) = .ok [64] ∧
    decode id (encode id 50000 [1]) = .ok [1] ∧
    ([64] : List Nat) ≠ [1] := by decide

/-- Claim C5 (confirmed).  At any position farther than 504 units from both
boundaries, every candidate symbol `d ∈ 0..63` yields an in-range
predecessor, and the first-ascending-`d` search therefore accepts `d = 0`
(with predecessor `p + dir * 256` and unchanged direction). -/
theorem interior_ambiguity (p dir : Int)
    (h1 : 504 < p - LOW) (h2 : 504 < HIGH - p) (hd : dir = 1 ∨ dir = -1) :
    (∀ d : Nat, d < 64 →
      LOW ≤ p - dir * ((d : Int) - CENTER) * STEP_FACTOR ∧
        p - dir * ((d : Int) - CENTER) * STEP_FACTOR ≤ HIGH) ∧
    findAccept p dir = some (0, p + dir * 256, dir) := by
  constructor
  · intro d hd64
    have hdi : (d : Int) < 64 := by exact_mod_cast hd64
    have hdi0 : (0 : Int) ≤ (d : Int) := Int.natCast_nonneg d
    simp only [LOW, HIGH, CENTER, STEP_FACTOR] at h1 h2 ⊢
    rcases hd with rfl | rfl <;> constructor <;> omega
  · have hacc := acceptOne_interior p dir h1 h2 hd
    have hstep : findAcceptAux 64 0 p dir =
        match acceptOne p dir 0 with
        | some pd => some (0, pd.1, pd.2)
        | none => findAcceptAux 63 1 p dir := rfl
    unfold findAccept
    rw [hstep, hacc]

/-- Witness for C5 at `p = 50000`, `dir = 1`. -/
theorem interior_ambiguity_witness :
    (∀ d : Nat, d < 64 →
      LOW ≤ 50000 - 1 * ((d : Int) - CENTER) * STEP_FACTOR ∧
        50000 - 1 * ((d : Int) - CENTER) * STEP_FACTOR ≤ HIGH) ∧
    findAccept 50000 1 = some (0, 50000 + 1 * 256, 1) :=
  interior_ambiguity 50000 1 (by decide) (by decide) (Or.inl rfl)

/-- Claim C6, counterexample.  In the walk of `encode` on `data = [255]`
from `start_mask = 99999`, the first step reflects (raw candidate
`99999 + 248 > HIGH`) yet the direction stays `+1`: direction change is not
equivalent to reflection. -/
theorem direction_flip_counterexample :
    walkTrace (chunksOfData [255]) 99999 1 =
      [⟨99999, 1, 63, 10000, 1⟩, ⟨10000, 1, 48, 10128, 1⟩] ∧
    (encode id 99999 [255]).end_mask = 10128 ∧
    ¬ ∀ e ∈ walkTrace (chunksOfData [255]) 99999 1,
        ((e.dirAfter ≠ e.dir) ↔ reflects e.pre e.dir e.sym) := by decide

/-- Claim C6, amended.  The direction is always `+1` or `-1`; on a step with
no reflection both the direction and the raw candidate position are kept;
a reflection above `HIGH` always yields direction `+1` and a reflection
below `LOW` always yields `-1`, irrespective of the prior direction — so a
reflection changes the direction only when the reset lands opposite to it. -/
theorem direction_discipline (pos dir : Int) (d : Nat) (hd : dir = 1 ∨ dir = -1) :
    ((stepF pos dir d).2 = 1 ∨ (stepF pos dir d).2 = -1) ∧
    (¬ reflects pos dir d →
      (stepF pos dir d).2 = dir ∧
        (stepF pos dir d).1 = pos + dir * ((d : Int) - CENTER) * STEP_FACTOR) ∧
    (pos + dir * ((d : Int) - CENTER) * STEP_FACTOR > HIGH →
      (stepF pos dir d).1 = LOW ∧ (stepF pos dir d).2 = 1) ∧
    (pos + dir * ((d : Int) - CENTER) * STEP_FACTOR < LOW →
      (stepF pos dir d).1 = HIGH ∧ (stepF pos dir d).2 = -1) := by
  refine ⟨stepF_dir pos dir d hd, ?_, ?_, ?_⟩
  · intro hh
    unfold reflects at hh
    push_neg at hh
    unfold stepF
    rw [if_neg (not_lt.mpr hh.1), if_neg (not_lt.mpr hh.2)]
    exact ⟨rfl, rfl⟩
  · intro hh
    unfold stepF
    rw [if_pos hh]
    exact ⟨rfl, rfl⟩
  · intro hh
    unfold stepF
    have hn : ¬ pos + dir * ((d : Int) - CENTER) * STEP_FACTOR > HIGH := by
      simp only [LOW, HIGH] at hh ⊢
      intro hc
      linarith
    rw [if_neg hn, if_pos hh]
    exact ⟨rfl, rfl⟩

/-- Witness for C6's amended theorem at `pos = 50000`, `dir = 1`, `d = 0`. -/
theorem direction_discipline_witness :
    ((stepF 50000 1 0).2 = 1 ∨ (stepF 50000 1 0).2 = -1) ∧
    (¬ reflects 50000 1 0 →
      (stepF 50000 1 0).2 = 1 ∧
        (stepF 50000 1 0).1 = 50000 + 1 * ((0 : Int) - CENTER) * STEP_FACTOR) ∧
    (50000 + 1 * ((0 : Int) - CENTER) * STEP_FACTOR > HIGH →
      (stepF 50000 1 0).1 = LOW ∧ (stepF 50000 1 0).2 = 1) ∧
    (50000 + 1 * ((0 : Int) - CENTER) * STEP_FACTOR < LOW →
      (stepF 50000 1 0).1 = HIGH ∧ (stepF 50000 1 0).2 = -1) := by
  have h := direction_discipline 50000 1 0 (Or.inl rfl)
  simpa using h

/-- Claim C7 (confirmed).  For every `decode` call that reaches
reconstruction (`decodeRaw` returned candidate bytes `r`) on a coordinate
carrying a non-empty digest, the recomputed digest is compared to the stored
one: on a mismatch `decode` fails with the integrity error and returns no
bytes, and on a match it returns exactly the reconstructed bytes. -/
theorem integrity_mismatch_fails (H : List Nat → List Nat) (c : Coord)
    (hs r : List Nat) (h1 : c.original_hash = some hs) (h2 : hs ≠ [])
    (h3 : decodeRaw c = .ok r) :
    (H r ≠ hs → decode H c = .error .hashMismatch) ∧
    (H r = hs → decode H c = .ok r) := by
  unfold decode
  rw [h3]
  dsimp only
  rw [h1]
  dsimp only
  constructor
  · intro hm
    rw [if_pos ⟨h2, hm⟩]
  · intro hm
    rw [if_neg (by simp [hm])]

/-- Witness for C7: the coordinate of `b = [0]`, `start_mask = 50000` with
its stored digest tampered to `[9]` reaches reconstruction with candidate
bytes `[0]`, and `decode` rejects it with the integrity error. -/
theorem integrity_mismatch_fails_witness :
    (id ([0] : List Nat) ≠ [9] →
      decode id { encode id 50000 [0] with original_hash := some [9] } =
        .error .hashMismatch) ∧
    (id ([0] : List Nat) = [9] →
      decode id { encode id 50000 [0] with original_hash := some [9] } = .ok [0]) :=
  integrity_mismatch_fails id { encode id 50000 [0] with original_hash := some [9] }
    [9] [0] (by decide) (by decide) (by decide)

/-- Claim C8, counterexample.  The keys of the dict `encode` returns are not
(even up to reordering) the §3 names: `last_symbol`, `content_hash` and
`format_version` do not occur — the source uses `last_choice`,
`original_hash` and `version`. -/
theorem dict_keys_counterexample :
    ¬ ((toDict (encode id 50000 [0])).map Prod.fst).Perm
      ["start_mask", "end_mask", "anchor_mask", "last_symbol", "last_direction",
       "length_bytes", "content_hash", "format_version"] := by decide

/-- Claim C8, amended.  Every coordinate produced by `encode` serializes as
a flat mapping with exactly the keys `version, start_mask, end_mask,
anchor_mask, last_choice, last_direction, length_bytes, original_hash` (in
source order), with integer values for the masks, symbol, direction and
length, and string values for the version and the digest. -/
theorem dict_keys_shape (H : List Nat → List Nat) (s : Int) (b : List Nat) :
    (toDict (encode H s b)).map Prod.fst =
      ["version", "start_mask", "end_mask", "anchor_mask", "last_choice",
       "last_direction", "length_bytes", "original_hash"] ∧
    (toDict (encode H s b)).map (fun pr => pr.2.isIntV) =
      [false, true, true, true, true, true, true, false] :=
  ⟨rfl, rfl⟩

/-- Claim C9 (confirmed).  The backward phase of `decode` is a loop of
exactly `total_chunks - 1` iterations (`total_chunks = ⌈length_bytes·8/6⌉ =
(length_bytes*8+5)/6`), hence at most `⌈length_bytes·8/6⌉` backward steps,
and each accepted symbol comes from the 64-candidate search `0..63`; the
loop is structurally bounded, so decoding always terminates. -/
theorem backward_bounded_work (c : Coord) (dir : Int) (syms : List Nat)
    (pf df : Int) (h : backwardPhase c dir = .ok (syms, pf, df)) :
    syms.length = (c.length_bytes * 8 + 5) / 6 - 1 ∧
    syms.length ≤ (c.length_bytes * 8 + 5) / 6 ∧
    ∀ x ∈ syms, x < 64 := by
  unfold backwardPhase at h
  have hh := resolveLoop_ok ((c.length_bytes * 8 + 5) / 6 - 1) c.anchor_mask dir
    syms pf df h
  exact ⟨hh.1, by omega, hh.2⟩

/-- Witness for C9 at the coordinate of `b = [0]`, `start_mask = 50000`. -/
theorem backward_bounded_work_witness :
    ([0] : List Nat).length = ((encode id 50000 [0]).length_bytes * 8 + 5) / 6 - 1 ∧
    ([0] : List Nat).length ≤ ((encode id 50000 [0]).length_bytes * 8 + 5) / 6 ∧
    ∀ x ∈ ([0] : List Nat), x < 64 :=
  backward_bounded_work (encode id 50000 [0]) 1 [0] 50000 1 (by decide)

/-- Claim C10 (confirmed, implicit).  If the coordinate has no
`original_hash` entry, or an empty (falsy) one, `decode` skips digest
verification entirely: it can never fail with the integrity error, whatever
bytes were reconstructed. -/
theorem missing_hash_skips_verification (H : List Nat → List Nat) (c : Coord)
    (h : c.original_hash = none ∨ c.original_hash = some []) :
    decode H c ≠ .error .hashMismatch := by
  unfold decode
  cases hr : decodeRaw c with
  | error e =>
    have hne := decodeRaw_not_hash c
    rw [hr] at hne
    simpa using hne
  | ok r => rcases h with h | h <;> rw [h] <;> simp

/-- Witness for C10: the coordinate of `b = [0]` with its hash stripped
decodes without any possibility of an integrity error. -/
theorem missing_hash_skips_verification_witness :
    decode id { encode id 50000 [0] with original_hash := none } ≠
      .error .hashMismatch :=
  missing_hash_skips_verification id _ (Or.inl rfl)

end OdinsEye
